import Mathlib

/-!
Shallow embedding of the command-line argument parser in
`src/cmdlinearg/cmdlinearg.hh` (namespace `arguments`), together with
theorems settling the specification claims.

Strings from the C++ source (`const char*`) are modelled as `List Char`;
a possibly-null `const char*` is `Option (List Char)`.  Machine-integer
details that the source relies on only outside the claimed behaviours
(long-to-int narrowing and `strtol` overflow clamping) are not modelled:
values stay in `Int`.
-/

namespace Cmdline

/-- The template default `max_string_length = 64` of `struct options`. -/
def maxStrLen : Nat := 64

/-- The default delimiter set of `delimHelper<T>`: `=` and `:`. -/
def isDelim (c : Char) : Bool := c = '=' || c = ':'

/-- C-locale `tolower`, as applied by `std::transform(..., ::tolower)`
in `fromString(bool&, const char*)`: only ASCII capitals move. -/
def toLowerC (c : Char) : Char :=
  if 'A' ≤ c ∧ c ≤ 'Z' then Char.ofNat (c.toNat + 32) else c

/-- C-locale `isspace`, used by `strtol` before scanning digits. -/
def isSpaceC (c : Char) : Bool :=
  c = ' ' || c = '\t' || c = '\n' || c = '\r' || c.toNat = 11 || c.toNat = 12

/-- Numeric value of a character as a digit, up to base 16. -/
def hexVal (c : Char) : Option Nat :=
  if '0' ≤ c ∧ c ≤ '9' then some (c.toNat - '0'.toNat)
  else if 'a' ≤ c ∧ c ≤ 'f' then some (c.toNat - 'a'.toNat + 10)
  else if 'A' ≤ c ∧ c ≤ 'F' then some (c.toNat - 'A'.toNat + 10)
  else none

/-- Digit value of `c` in the given base, or `none`. -/
def digVal (base : Nat) (c : Char) : Option Nat :=
  match hexVal c with
  | some v => if v < base then some v else none
  | none => none

/-- Accumulate a maximal run of digits in the given base.  Returns the
accumulated value and whether at least one digit was consumed. -/
def takeDigits (base : Nat) : Nat → Bool → List Char → Nat × Bool
  | acc, consumed, [] => (acc, consumed)
  | acc, consumed, c :: cs =>
    match digVal base c with
    | some v => takeDigits base (acc * base + v) true cs
    | none => (acc, consumed)

/-- The base-detection and digit-scan part of `strtol` with base 0,
applied after spaces and the sign have been stripped: a `0x`/`0X`
prefix followed by a hex digit selects base 16, any other leading `0`
selects base 8 (the `0` itself already counts as a consumed digit),
anything else is scanned in base 10.  Returns the magnitude and
whether at least one digit was consumed. -/
def strtolScan : List Char → Nat × Bool
  | '0' :: c :: r2 =>
    if (c = 'x' || c = 'X') &&
        (match r2.head? with | some d2 => (digVal 16 d2).isSome | none => false) then
      ((takeDigits 16 0 false r2).1, true)
    else
      ((takeDigits 8 0 false ('0' :: c :: r2)).1, true)
  | ['0'] => (0, true)
  | s2 => takeDigits 10 0 false s2

/-- `std::strtol(s, &r, 0)` as used by `fromString(int&, const char*)`:
skip spaces, optional sign, then `strtolScan`.  Result is the parsed
value (0 when no digit was consumed, as `strtol` returns 0 then) and
the success flag `s != r`, which is true exactly when at least one
digit was consumed.  Overflow clamping to `LONG_MAX` and the
long-to-int narrowing at the assignment are not modelled. -/
def strtolC (s : List Char) : Int × Bool :=
  let s1 := s.dropWhile isSpaceC
  let sgn : Int := match s1.head? with | some '-' => -1 | _ => 1
  let s2 := match s1 with
    | '-' :: r => r
    | '+' :: r => r
    | _ => s1
  let p := strtolScan s2
  (sgn * p.1, p.2)

/-- The strings recognised as true by `fromString(bool&, const char*)`. -/
def trueStrs : List (List Char) := ["1".data, "true".data, "yes".data, "enable".data]

/-- The strings recognised as false by `fromString(bool&, const char*)`. -/
def falseStrs : List (List Char) := ["0".data, "false".data, "no".data, "disable".data]

/-- Closed universe of bound-variable values used by the claims: the
base types `std::string`, `int`, `bool` and the two container shapes of
the example (`list<int>` appending ints, `vector<string>` appending
strings).  `float` is not needed by any claim and is omitted. -/
inductive Val where
  | vstr (s : List Char)
  | vint (n : Int)
  | vbool (b : Bool)
  | vlistInt (l : List Int)
  | vlistStr (l : List (List Char))
  deriving DecidableEq, Repr

/-- Dispatch of the overloaded `fromString(T&, const char*)` family.
Mirrors the source exactly, including mutation on failure:
`int` receives whatever `strtol` returned (0 when nothing parsed);
`bool` is assigned `isTrue` unconditionally (`return (v = isTrue) || isFalse`);
containers push the converted element only on success. -/
def fromStringVal : Val → List Char → Val × Bool
  | .vstr _, s => (.vstr s, true)
  | .vint _, s =>
    let p := strtolC s
    (.vint p.1, p.2)
  | .vbool _, s =>
    let t := s.map toLowerC
    let isT := trueStrs.contains t
    let isF := falseStrs.contains t
    (.vbool isT, isT || isF)
  | .vlistInt l, s =>
    let p := strtolC s
    (if p.2 then .vlistInt (l ++ [p.1]) else .vlistInt l, p.2)
  | .vlistStr l, s => (.vlistStr (l ++ [s]), true)

/-- The `number_of_arguments<T>` trait: 0 for `bool`, 1 otherwise
(the primary template also covers container types). -/
def numArgsVal : Val → Nat
  | .vbool _ => 0
  | _ => 1

/-- One registered option: `argObj<T>` with its `argStrings` base
(short, long, help, default) plus the `seen` flag and the bound
variable it references. -/
structure ArgObj where
  s : Option (List Char)
  l : Option (List Char)
  h : Option (List Char)
  d : Option (List Char)
  seen : Bool
  v : Val
  deriving DecidableEq, Repr

/-- `argObj<T>::setMe`: set `seen`, run the converter, return the
updated object and the conversion result. -/
def setMe (a : ArgObj) (s : List Char) : ArgObj × Bool :=
  let p := fromStringVal a.v s
  ({ a with seen := true, v := p.1 }, p.2)

/-- The character-comparison loop of `argObjBase::isMe`: walk `x`
against `y` while both are nonempty and fewer than `fuel` characters of
`x` have been consumed; mismatch means no match (`none`), otherwise the
remainders are returned. -/
def matchLoop : List Char → List Char → Nat → Option (List Char × List Char)
  | x, [], _ => some (x, [])
  | [], b :: y2, _ => some ([], b :: y2)
  | a :: x2, b :: y2, 0 => some (a :: x2, b :: y2)
  | a :: x2, b :: y2, fuel + 1 =>
    if a = b then matchLoop x2 y2 fuel else none

/-- `argObjBase::isMe(d, z, sl)`.  `z` is the candidate fragment (null
only in the `findDefault` probe), `sl` selects the short spelling.
Result: `none` for no match, `some d` for a match where `d` is the
embedded-value fragment (`none` when the fragment was consumed
entirely).  Short mode skips one leading delimiter and takes the rest
as the value; long mode requires a delimiter before any remainder. -/
def isMe (z : Option (List Char)) (sl : Bool) (a : ArgObj) : Option (Option (List Char)) :=
  let y := if sl then a.s else a.l
  match z, y with
  | none, none => some none
  | none, some _ => none
  | some _, none => none
  | some x, some yv =>
    match matchLoop x yv maxStrLen with
    | none => none
    | some (xr, yr) =>
      match yr with
      | _ :: _ => none
      | [] =>
        match xr with
        | [] => some none
        | c :: xs =>
          if sl then some (some (if isDelim c then xs else c :: xs))
          else if isDelim c then some (some xs) else none

/-- `options::findArg`: first descriptor in registry iteration order
matching the fragment, together with its position and embedded value. -/
def findArg : List ArgObj → List Char → Bool → Option (Nat × ArgObj × Option (List Char))
  | [], _, _ => none
  | a :: rest, frag, sl =>
    match isMe (some frag) sl a with
    | some d => some (0, a, d)
    | none => (findArg rest frag sl).map (fun p => (p.1 + 1, p.2))

/-- `options::findDefault`: position of the first descriptor whose two
`isMe(dummy, nullptr, _)` probes both succeed, i.e. whose short and
long spellings are both null.  `none` models the `noDefault` sentinel
whose `setMe` always fails. -/
def findDefault : List ArgObj → Option Nat
  | [] => none
  | a :: rest =>
    if (isMe none false a).isSome ∧ (isMe none true a).isSome then some 0
    else (findDefault rest).map (· + 1)

/-- `options::setDefaults`: for every descriptor not yet seen and with
a non-null default string, invoke its setter with that string; the
setter result is discarded. -/
def setDefaults : List ArgObj → List ArgObj
  | [] => []
  | a :: rest =>
    (match a.seen, a.d with
      | false, some ds => (setMe a ds).1
      | _, _ => a) :: setDefaults rest

/-- Error kinds of `errorstate_e`. -/
inductive ErrState where
  | ok
  | invalid
  | unknown
  deriving DecidableEq, Repr

/-- `struct errorState` with its possibly-null operand and value. -/
structure ErrorState where
  state : ErrState
  op : Option (List Char)
  val : Option (List Char)
  deriving DecidableEq, Repr

/-- Invoke the setter of the default (positional) consumer found by
`findDefault`: the `noDefault` sentinel (`none`) always fails and
leaves the registry untouched. -/
def setDef (dIdx : Option Nat) (reg : List ArgObj) (s : List Char) :
    List ArgObj × Bool :=
  match dIdx with
  | none => (reg, false)
  | some i =>
    match reg[i]? with
    | none => (reg, false)
    | some a =>
      let p := setMe a s
      (reg.set i p.1, p.2)

/-- The `while (!l.empty())` body of `proc` for a lone `-` token: feed
every remaining token, front first, to the default consumer; the first
conversion failure returns `invalid` carrying a null operand and the
offending value, leaving the rest of the queue unconsumed. -/
def slurp : List (List Char) → Option Nat → List ArgObj →
    ErrorState × List (List Char) × List ArgObj
  | [], _, reg => (⟨.ok, none, none⟩, [], reg)
  | v :: rest, dIdx, reg =>
    let p := setDef dIdx reg v
    if p.2 then slurp rest dIdx p.1
    else (⟨.invalid, none, some v⟩, rest, p.1)

/-- The literal `"true"` passed to arity-0 setters in `proc`. -/
def trueLit : List Char := "true".data

/-- The literal `"default list"` operand of positional failures. -/
def defaultListLit : List Char := "default list".data

/-- Handling of a matched or unmatched option token in `proc`: push the
embedded value back onto the queue, then either set an arity-0 option
with the literal `"true"`, or pop one value token and set.  Popping
from an empty queue is undefined behaviour in the source
(`l.front()` on an empty `forward_list`), modelled as `none`. -/
def procOpt (op : List Char) (rest : List (List Char)) (reg : List ArgObj)
    (fa : Option (Nat × ArgObj × Option (List Char))) :
    Option (ErrorState × List (List Char) × List ArgObj) :=
  match fa with
  | none => some (⟨.unknown, some op, none⟩, rest, reg)
  | some (i, a, dm) =>
    let rest1 := match dm with
      | some dv => dv :: rest
      | none => rest
    if numArgsVal a.v = 0 then
      let p := setMe a trueLit
      some ((if p.2 then ⟨.ok, none, none⟩ else ⟨.invalid, some op, some trueLit⟩),
        rest1, reg.set i p.1)
    else
      match rest1 with
      | [] => none
      | val :: rest2 =>
        let p := setMe a val
        some ((if p.2 then ⟨.ok, none, none⟩ else ⟨.invalid, some op, some val⟩),
          rest2, reg.set i p.1)

/-- `options::proc`: pop the front token and dispatch on its shape.
Calling it on an empty queue dereferences an empty `forward_list` in
the source (undefined behaviour), modelled as `none`; `populate` never
does so. -/
def proc (q : List (List Char)) (dIdx : Option Nat) (reg : List ArgObj) :
    Option (ErrorState × List (List Char) × List ArgObj) :=
  match q with
  | [] => none
  | op :: rest =>
    match op with
    | [] => some (⟨.ok, none, none⟩, rest, reg)
    | c :: ctail =>
      if c = '-' then
        match ctail with
        | [] => some (slurp rest dIdx reg)
        | c2 :: ctail2 =>
          if c2 = '-' then procOpt op rest reg (findArg reg ctail2 false)
          else procOpt op rest reg (findArg reg ctail true)
      else
        let p := setDef dIdx reg op
        some ((if p.2 then ⟨.ok, none, none⟩ else ⟨.invalid, some defaultListLit, some op⟩),
          rest, p.1)

/-- Fuel measure: total character count plus token count of the queue.
Every `proc` step strictly decreases it, so `qSize q + 1` steps always
suffice for the `populate` loop. -/
def qSize : List (List Char) → Nat
  | [] => 0
  | s :: rest => s.length + 1 + qSize rest

/-- The `while (!args.empty() && (r = proc(args, defOp)).state == ok)`
loop of `populate`, followed by the conditional `setDefaults()`.  The
`r` argument is the current value of the local `r`, consulted only when
the queue is empty (the loop then exits without calling `proc`). -/
def populateLoop : Nat → List (List Char) → Option Nat → List ArgObj → ErrorState →
    Option (ErrorState × List ArgObj)
  | _, [], _, reg, r =>
    some (if r.state = ErrState.ok then (r, setDefaults reg) else (r, reg))
  | 0, _ :: _, _, _, _ => none
  | fuel + 1, op :: rest, dIdx, reg, _ =>
    match proc (op :: rest) dIdx reg with
    | none => none
    | some (r2, q2, reg2) =>
      if r2.state = ErrState.ok then populateLoop fuel q2 dIdx reg2 r2
      else some (r2, reg2)

/-- `options::populate`.  `tokens` is the queue seeded from
`argv[1] .. argv[argc-1]` in order.  The local `errorState r;` of the
source is default-initialised and therefore indeterminate when the
token list is empty; its initial value is modelled by the explicit
parameter `r0` (any run with a nonempty token list overwrites it before
it is read). -/
def populate (r0 : ErrorState) (tokens : List (List Char)) (reg : List ArgObj) :
    Option (ErrorState × List ArgObj) :=
  populateLoop (qSize tokens + 1) tokens (findDefault reg) reg r0

/-- `options::option`: registration prepends a fresh descriptor
(`seen = false`) built from the given strings and bound variable. -/
def optionReg (reg : List ArgObj) (s l h d : Option (List Char)) (v : Val) :
    List ArgObj :=
  ({ s := s, l := l, h := h, d := d, seen := false, v := v } : ArgObj) :: reg

/-- Registering a batch of descriptors in the given order, each by
prepending, as the source example does. -/
def registerAll (ds : List ArgObj) (init : List ArgObj) : List ArgObj :=
  ds.foldl (fun r a => a :: r) init

/-- Specification-side restatement of the `populate` loop without the
trailing `setDefaults()`, used to show that defaults are applied
exactly once, after the loop, and only on success. -/
def populateLoopND : Nat → List (List Char) → Option Nat → List ArgObj → ErrorState →
    Option (ErrorState × List ArgObj)
  | _, [], _, reg, r => some (r, reg)
  | 0, _ :: _, _, _, _ => none
  | fuel + 1, op :: rest, dIdx, reg, _ =>
    match proc (op :: rest) dIdx reg with
    | none => none
    | some (r2, q2, reg2) =>
      if r2.state = ErrState.ok then populateLoopND fuel q2 dIdx reg2 r2
      else some (r2, reg2)

/-- Specification-side sequential feed: hand each token, in order, to
the default consumer.  Returns the final registry and the first token
whose conversion failed, if any.  Used to characterise the lone-dash
slurp mode of `proc`. -/
def feedAll : List (List Char) → Option Nat → List ArgObj → List ArgObj × Option (List Char)
  | [], _, reg => (reg, none)
  | v :: rest, dIdx, reg =>
    let p := setDef dIdx reg v
    if p.2 then feedAll rest dIdx p.1 else (p.1, some v)

/-- The `outfile` registration of the source example. -/
def outfileA : ArgObj :=
  ⟨some "o".data, some "outfile".data, some "Output file name".data,
   some "out.dat".data, false, .vstr []⟩

/-- The `count` registration of the source example. -/
def countA : ArgObj :=
  ⟨some "c".data, some "count".data, some "Number of loops".data,
   some "13".data, false, .vint 0⟩

/-- The `ws` registration of the source example. -/
def wsA : ArgObj :=
  ⟨some "w".data, some "w".data, some "w list".data, none, false, .vlistInt []⟩

/-- The null-spelling positional registration of the source example. -/
def infileA : ArgObj :=
  ⟨none, none, some "Input file list".data, none, false, .vlistStr []⟩

/-- The registry obtained from the four example registrations. -/
def exampleReg : List ArgObj := registerAll [outfileA, countA, wsA, infileA] []

/-- The example command line, minus the program name. -/
def exampleToks : List (List Char) :=
  ["--outfile".data, "foo".data, "-c".data, "4".data, "-w".data, "4".data,
   "-w5".data, "-w=4".data, "-w:1".data, "--w".data, "6".data,
   "bar1".data, "bar2".data, "bar3".data]

/-- A small registry used for concrete checks: an int option `count`
with prior value 5 and the malformed default `"abc"`, plus a
null-spelling positional consumer. -/
def regBase : List ArgObj :=
  [⟨some "c".data, some "count".data, none, some "abc".data, false, .vint 5⟩,
   ⟨none, none, none, none, false, .vlistStr []⟩]

/-- A registered boolean flag used for concrete checks. -/
def boolA : ArgObj :=
  ⟨some "v".data, some "verbose".data, none, none, false, .vbool false⟩

/-- First of two descriptors sharing the short spelling `v`. -/
def dupA : ArgObj := ⟨some "v".data, some "vanilla".data, none, none, false, .vint 1⟩

/-- Second of two descriptors sharing the short spelling `v`. -/
def dupB : ArgObj := ⟨some "v".data, some "velvet".data, none, none, false, .vint 2⟩

/-- A string-typed scalar option used for concrete checks. -/
def strA : ArgObj := ⟨some "o".data, some "outfile".data, none, none, false, .vstr []⟩

/-- Walking a fragment that begins with the spelling consumes exactly
the spelling whenever the spelling fits the cap, leaving the rest of
the fragment. -/
theorem matchLoop_append (y r : List Char) (fuel : Nat) (h : y.length ≤ fuel) :
    matchLoop (y ++ r) y fuel = some (r, []) := by
  induction y generalizing fuel with
  | nil => simp [matchLoop]
  | cons b y2 ih =>
    cases fuel with
    | zero => simp at h
    | succ f =>
      simp only [List.cons_append, matchLoop, if_pos rfl]
      exact ih f (by simpa using h)

/-- Once a digit has been consumed the consumed flag stays set. -/
theorem takeDigits_true (base : Nat) (acc : Nat) (l : List Char) :
    (takeDigits base acc true l).2 = true := by
  induction l generalizing acc with
  | nil => rfl
  | cons c cs ih =>
    unfold takeDigits
    cases digVal base c with
    | some v => exact ih _
    | none => rfl

/-- A scan that consumed no digit leaves the accumulator untouched. -/
theorem takeDigits_false_acc (base acc : Nat) (l : List Char)
    (h : (takeDigits base acc false l).2 = false) :
    (takeDigits base acc false l).1 = acc := by
  cases l with
  | nil => rfl
  | cons c cs =>
    unfold takeDigits at h ⊢
    cases hd : digVal base c with
    | some v => simp [hd, takeDigits_true] at h
    | none => simp [hd]

/-- A failed base scan yields magnitude 0. -/
theorem strtolScan_false (l : List Char) (h : (strtolScan l).2 = false) :
    (strtolScan l).1 = 0 := by
  unfold strtolScan at h ⊢
  split at h
  · split at h <;> simp at h
  · simp at h
  · exact takeDigits_false_acc 10 0 _ h

/-- When `strtol` fails (no digit consumed) it has returned value 0. -/
theorem strtolC_fail (s : List Char) (h : (strtolC s).2 = false) :
    (strtolC s).1 = 0 := by
  simp only [strtolC] at h ⊢
  rw [strtolScan_false _ h]
  simp

/-- C1: for a registry holding the four example registrations, parsing
`--outfile foo -c 4 -w 4 -w5 -w=4 -w:1 --w 6 bar1 bar2 bar3` returns Ok
and leaves `outfile = "foo"`, `count = 4`, `ws = [4, 5, 4, 1, 6]` and
the positional list `["bar1", "bar2", "bar3"]`, for any initial value
of the result local. -/
theorem c1_end_to_end (r0 : ErrorState) :
    populate r0 exampleToks exampleReg =
      some (⟨.ok, none, none⟩,
        [⟨none, none, some "Input file list".data, none, true,
           .vlistStr ["bar1".data, "bar2".data, "bar3".data]⟩,
         ⟨some "w".data, some "w".data, some "w list".data, none, true,
           .vlistInt [4, 5, 4, 1, 6]⟩,
         ⟨some "c".data, some "count".data, some "Number of loops".data,
           some "13".data, true, .vint 4⟩,
         ⟨some "o".data, some "outfile".data, some "Output file name".data,
           some "out.dat".data, true, .vstr "foo".data⟩]) := rfl

/-- C3 (counterexample): converting the unrecognised spelling `"zz"`
into a bool previously holding `true` fails, yet overwrites the
variable with `false` instead of leaving it unchanged. -/
theorem c3_counterexample :
    fromStringVal (Val.vbool true) "zz".data = (Val.vbool false, false) ∧
      Val.vbool false ≠ Val.vbool true := by
  exact ⟨rfl, by decide⟩

/-- C3 (amended): the boolean converter accepts, case-insensitively,
exactly the spellings 1, true, yes, enable (new value true) and
0, false, no, disable (new value false); for any other string it
returns failure but sets the bound variable to false (the source runs
the assignment `v = isTrue` unconditionally) rather than leaving it at
its prior value. -/
theorem c3_bool_converter (b : Bool) (s : List Char) :
    ((fromStringVal (Val.vbool b) s).2 = true ↔
      s.map toLowerC ∈ trueStrs ∨ s.map toLowerC ∈ falseStrs)
    ∧ ((fromStringVal (Val.vbool b) s).1 = Val.vbool true ↔ s.map toLowerC ∈ trueStrs)
    ∧ ((fromStringVal (Val.vbool b) s).2 = false →
        (fromStringVal (Val.vbool b) s).1 = Val.vbool false) := by
  refine ⟨?_, ?_, ?_⟩
  · simp [fromStringVal, List.elem_iff, List.contains]
  · simp [fromStringVal, List.elem_iff, List.contains]
  · intro h
    simp [fromStringVal, List.elem_iff, List.contains] at h ⊢
    exact h.1

/-- C3 witness: the amended theorem evaluated at the failing input. -/
theorem c3_witness :
    (fromStringVal (Val.vbool true) "zz".data).1 = Val.vbool false :=
  (c3_bool_converter true "zz".data).2.2 (by decide)

/-- C4 (counterexample): with prior value 5 and malformed default
`"abc"`, a successful parse still returns Ok, but the bound int ends up
0 (what `strtol` wrote when it failed), not the prior 5. -/
theorem c4_counterexample :
    populate ⟨.ok, none, none⟩ ["x".data] regBase =
      some (⟨.ok, none, none⟩,
        [⟨some "c".data, some "count".data, none, some "abc".data, true, .vint 0⟩,
         ⟨none, none, none, none, true, .vlistStr ["x".data]⟩]) ∧
      Val.vint 0 ≠ Val.vint 5 := by
  exact ⟨rfl, by decide⟩

/-- C4 (amended): a default string that fails conversion is swallowed
(the parse still returns Ok) but the bound variable is left as the
failed converter wrote it, with `seen` set, not at its prior value: a
bound int becomes 0, while an appendable container stays unchanged. -/
theorem c4_amended (n : Int) (L : List Int) (sh lo hp : Option (List Char))
    (ds : List Char) (r0 : ErrorState) (hfail : (strtolC ds).2 = false) :
    populate r0 [[]] [⟨sh, lo, hp, some ds, false, .vint n⟩] =
      some (⟨.ok, none, none⟩, [⟨sh, lo, hp, some ds, true, .vint 0⟩])
    ∧ setDefaults [⟨sh, lo, hp, some ds, false, .vlistInt L⟩] =
      [⟨sh, lo, hp, some ds, true, .vlistInt L⟩] := by
  constructor
  · simp [populate, qSize, populateLoop, proc, setDefaults, setMe,
      fromStringVal, hfail, strtolC_fail ds hfail]
  · simp [setDefaults, setMe, fromStringVal, hfail]

/-- C4 witness: the amended theorem evaluated at a concrete failing
default. -/
theorem c4_witness :
    populate ⟨.ok, none, none⟩ [[]]
        [⟨some "c".data, some "count".data, none, some "abc".data, false, .vint 5⟩] =
      some (⟨.ok, none, none⟩,
        [⟨some "c".data, some "count".data, none, some "abc".data, true, .vint 0⟩])
    ∧ setDefaults [⟨some "c".data, some "count".data, none, some "abc".data, false,
        .vlistInt [7]⟩] =
      [⟨some "c".data, some "count".data, none, some "abc".data, true, .vlistInt [7]⟩] :=
  c4_amended 5 [7] (some "c".data) (some "count".data) none "abc".data
    ⟨.ok, none, none⟩ (by decide)

/-- C10 (counterexample): with an empty token sequence the loop body
never runs, so `populate` hands back the indeterminate initial value of
the uninitialised local `r`; when that value is not Ok, the parse does
not return Ok and `setDefaults` is not run (the registry keeps its
unapplied default). -/
theorem c10_counterexample :
    populate ⟨.invalid, none, none⟩ [] regBase =
      some (⟨.invalid, none, none⟩, regBase)
    ∧ ErrState.invalid ≠ ErrState.ok
    ∧ setDefaults regBase ≠ regBase := by
  exact ⟨rfl, by decide, by decide⟩

/-- C10 (amended): with an empty token sequence `populate` returns the
indeterminate initial value `r0` of the uninitialised local `r`
unchanged, and runs `setDefaults` exactly when that value happens to
have state Ok. -/
theorem c10_amended (r0 : ErrorState) (reg : List ArgObj) :
    (r0.state = ErrState.ok → populate r0 [] reg = some (r0, setDefaults reg))
    ∧ (r0.state ≠ ErrState.ok → populate r0 [] reg = some (r0, reg)) := by
  constructor <;> intro h <;> simp [populate, qSize, populateLoop, h]

/-- C10 witness: the amended theorem at an Ok initial value. -/
theorem c10_witness :
    populate ⟨.ok, none, none⟩ [] regBase =
      some (⟨.ok, none, none⟩, setDefaults regBase) :=
  (c10_amended ⟨.ok, none, none⟩ regBase).1 rfl

/-- C5: when the front token starts with a dash, is not the lone dash,
and its fragment matches no registered descriptor, the parse stops at
once with UnknownOption carrying the original token, leading dashes
included; the registry is returned exactly as it stood, so nothing to
the right of the offending token is ever set and nothing already set is
rolled back. -/
theorem c5_unknown_option (fuel : Nat) (c : Char) (ts : List Char)
    (rest : List (List Char)) (dIdx : Option Nat) (reg : List ArgObj)
    (r0 : ErrorState)
    (hfind : (if c = '-' then findArg reg ts false else findArg reg (c :: ts) true) = none) :
    populateLoop (fuel + 1) (('-' :: c :: ts) :: rest) dIdx reg r0 =
      some (⟨.unknown, some ('-' :: c :: ts), none⟩, reg) := by
  by_cases hc : c = '-'
  · subst hc
    rw [if_pos rfl] at hfind
    simp [populateLoop, proc, procOpt, hfind]
  · rw [if_neg hc] at hfind
    simp [populateLoop, proc, procOpt, hfind, hc]

/-- C5 witness: the unknown token `--bogus` halts a parse over the
concrete registry, leaving it untouched; the following `--count 9` is
never applied. -/
theorem c5_witness :
    populateLoop 4 (('-' :: '-' :: "bogus".data) :: ["--count".data, "9".data])
        (some 1) regBase ⟨.ok, none, none⟩ =
      some (⟨.unknown, some ('-' :: '-' :: "bogus".data), none⟩, regBase) :=
  c5_unknown_option 3 '-' "bogus".data ["--count".data, "9".data] (some 1) regBase
    ⟨.ok, none, none⟩ (by decide)

/-- C8: registration prepends, so a batch of registrations is iterated
in reverse registration order; and `findArg` answers with the first
match in iteration order — every descriptor strictly before the
returned index fails to match — so of two matching registrations the
most recently registered one wins. -/
theorem c8_order :
    (∀ (ds init : List ArgObj), registerAll ds init = ds.reverse ++ init)
    ∧ (∀ (reg : List ArgObj) (frag : List Char) (sl : Bool) (i : Nat) (a : ArgObj)
        (d : Option (List Char)), findArg reg frag sl = some (i, a, d) →
        reg[i]? = some a ∧ isMe (some frag) sl a = some d ∧
        ∀ j b, j < i → reg[j]? = some b → isMe (some frag) sl b = none) := by
  constructor
  · intro ds
    induction ds with
    | nil => intro init; rfl
    | cons a t ih =>
      intro init
      show registerAll t (a :: init) = (a :: t).reverse ++ init
      rw [ih (a :: init)]
      simp
  · intro reg frag sl
    induction reg with
    | nil => intro i a d h; simp [findArg] at h
    | cons a0 t ih =>
      intro i a d h
      cases hm : isMe (some frag) sl a0 with
      | some d0 =>
        simp only [findArg, hm] at h
        obtain ⟨hi, ha, hd⟩ : 0 = i ∧ a0 = a ∧ d0 = d := by
          simpa using h
        subst hi; subst ha; subst hd
        refine ⟨by simp, hm, ?_⟩
        intro j b hj
        exact absurd hj (Nat.not_lt_zero j)
      | none =>
        simp only [findArg, hm, Option.map_eq_some'] at h
        obtain ⟨⟨i2, a2, d2⟩, hp, he⟩ := h
        obtain ⟨hi, ha, hd⟩ : i2 + 1 = i ∧ a2 = a ∧ d2 = d := by
          simpa using he
        subst hi; subst ha; subst hd
        obtain ⟨h1, h2, h3⟩ := ih i2 a2 d2 hp
        refine ⟨by simpa using h1, h2, ?_⟩
        intro j b hj hjb
        cases j with
        | zero =>
          obtain rfl : a0 = b := by simpa using hjb
          exact hm
        | succ j2 =>
          exact h3 j2 b (Nat.lt_of_succ_lt_succ hj) (by simpa using hjb)

/-- C8 witness: two registrations sharing the short spelling `v`: the
registry iterates them in reverse order and lookup returns the later
registration. -/
theorem c8_witness :
    registerAll [dupA, dupB] [] = [dupB, dupA]
    ∧ ([dupB, dupA])[0]? = some dupB
    ∧ isMe (some "v".data) true dupB = some none := by
  refine ⟨c8_order.1 [dupA, dupB] [], ?_, ?_⟩
  · exact (c8_order.2 [dupB, dupA] "v".data true 0 dupB none (by decide)).1
  · exact (c8_order.2 [dupB, dupA] "v".data true 0 dupB none (by decide)).2.1

/-- C9: a token matching a registered boolean (arity-0) option sets the
bound variable to true by invoking the setter with the literal string
true, and consumes no following token: the queue after the step is the
embedded-value fragment, if any, pushed back in front of the untouched
remainder. -/
theorem c9_bool_flag (c : Char) (ts : List Char) (rest : List (List Char))
    (dIdx : Option Nat) (reg : List ArgObj) (i : Nat) (a : ArgObj)
    (dm : Option (List Char)) (b : Bool)
    (hfind : (if c = '-' then findArg reg ts false else findArg reg (c :: ts) true) =
      some (i, a, dm))
    (hb : a.v = Val.vbool b) :
    proc (('-' :: c :: ts) :: rest) dIdx reg =
      some (⟨.ok, none, none⟩, dm.elim rest (· :: rest),
        reg.set i { a with seen := true, v := Val.vbool true }) := by
  have hfs : fromStringVal (Val.vbool b) trueLit = (Val.vbool true, true) := rfl
  have hset : setMe a trueLit = ({ a with seen := true, v := Val.vbool true }, true) := by
    simp [setMe, hb, hfs]
  have hn : numArgsVal a.v = 0 := by simp [hb, numArgsVal]
  by_cases hc : c = '-'
  · subst hc
    rw [if_pos rfl] at hfind
    cases dm <;> simp [proc, procOpt, hfind, hset, hn, Option.elim]
  · rw [if_neg hc] at hfind
    cases dm <;> simp [proc, procOpt, hfind, hset, hn, hc, Option.elim]

/-- C9 witness: the flag `-v` sets the bound bool to true and leaves
the following token in the queue. -/
theorem c9_witness :
    proc (('-' :: 'v' :: ([] : List Char)) :: ["next".data]) none [boolA] =
      some (⟨.ok, none, none⟩, ["next".data],
        [⟨some "v".data, some "verbose".data, none, none, true, .vbool true⟩]) := by
  simpa using
    c9_bool_flag 'v' [] ["next".data] none [boolA] 0 boolA none false (by decide) rfl

/-- C6: the defaults pass touches exactly the descriptors whose seen
flag is still false and which carry a default string — those get their
setter invoked with the default string, everything else is returned
unchanged — and the populate loop factors as the plain token loop
followed by a single `setDefaults` application performed exactly when
the loop outcome is Ok. -/
theorem c6_defaults_iff :
    (∀ (reg : List ArgObj) (i : Nat) (a : ArgObj), reg[i]? = some a →
      (setDefaults reg)[i]? = some (match a.seen, a.d with
        | false, some ds => (setMe a ds).1
        | _, _ => a))
    ∧ (∀ (fuel : Nat) (q : List (List Char)) (dIdx : Option Nat) (reg : List ArgObj)
        (r0 : ErrorState),
        populateLoop fuel q dIdx reg r0 =
          (populateLoopND fuel q dIdx reg r0).map
            (fun p => if p.1.state = ErrState.ok then (p.1, setDefaults p.2) else p)) := by
  constructor
  · intro reg
    induction reg with
    | nil => intro i a h; simp at h
    | cons a0 t ih =>
      intro i a h
      cases i with
      | zero =>
        obtain rfl : a0 = a := by simpa using h
        simp [setDefaults]
      | succ i2 =>
        simp only [List.getElem?_cons_succ] at h
        simpa [setDefaults] using ih i2 a h
  · intro fuel
    induction fuel with
    | zero =>
      intro q dIdx reg r0
      cases q with
      | nil => simp [populateLoop, populateLoopND]
      | cons op rest => simp [populateLoop, populateLoopND]
    | succ f ih =>
      intro q dIdx reg r0
      cases q with
      | nil => simp [populateLoop, populateLoopND]
      | cons op rest =>
        cases hp : proc (op :: rest) dIdx reg with
        | none => simp [populateLoop, populateLoopND, hp]
        | some trip =>
          obtain ⟨r2, q2, reg2⟩ := trip
          by_cases hok : r2.state = ErrState.ok
          · simp [populateLoop, populateLoopND, hp, hok, ih]
          · simp [populateLoop, populateLoopND, hp, hok]

/-- C6 witness: a not-seen descriptor with default `"13"` receives the
default through its setter. -/
theorem c6_witness :
    (setDefaults [⟨some "c".data, some "count".data, none, some "13".data, false,
        .vint 0⟩])[0]? =
      some ⟨some "c".data, some "count".data, none, some "13".data, true, .vint 13⟩ := by
  rw [c6_defaults_iff.1
    [⟨some "c".data, some "count".data, none, some "13".data, false, .vint 0⟩] 0
    ⟨some "c".data, some "count".data, none, some "13".data, false, .vint 0⟩ (by simp)]
  rfl

/-- The lone-dash loop of `proc` agrees with the sequential feed
`feedAll`: they produce the same registry, a failure reports the first
failing token as an InvalidValue with null operand, and a fully
successful feed consumes the whole queue. -/
theorem slurp_feedAll (rest : List (List Char)) (dIdx : Option Nat) (reg : List ArgObj) :
    ((slurp rest dIdx reg).1, (slurp rest dIdx reg).2.2) =
      (match feedAll rest dIdx reg with
        | (g, none) => ((⟨.ok, none, none⟩ : ErrorState), g)
        | (g, some v) => (⟨.invalid, none, some v⟩, g))
    ∧ ((feedAll rest dIdx reg).2 = none → (slurp rest dIdx reg).2.1 = []) := by
  induction rest generalizing reg with
  | nil => simp [slurp, feedAll]
  | cons v rest2 ih =>
    by_cases hb : (setDef dIdx reg v).2 = true
    · simpa [slurp, feedAll, hb] using ih (setDef dIdx reg v).1
    · simp [slurp, feedAll, hb]

/-- C7: a lone dash feeds every remaining token, in order and one at a
time, to the default consumer's setter (that sequential feed is
`feedAll`, which ignores whether tokens start with a dash); if every
conversion succeeds the queue is exhausted, the loop ends and defaults
are applied, while the first failing token aborts the whole parse with
InvalidValue carrying that token as the offending value. -/
theorem c7_dash_slurp (fuel : Nat) (rest : List (List Char)) (dIdx : Option Nat)
    (reg : List ArgObj) (r0 : ErrorState) :
    populateLoop (fuel + 1) (['-'] :: rest) dIdx reg r0 =
      some (match feedAll rest dIdx reg with
        | (g, none) => ((⟨.ok, none, none⟩ : ErrorState), setDefaults g)
        | (g, some v) => (⟨.invalid, none, some v⟩, g)) := by
  obtain ⟨hmain, hq⟩ := slurp_feedAll rest dIdx reg
  rcases hsl : slurp rest dIdx reg with ⟨x, y, z⟩
  rw [hsl] at hmain hq
  cases hf : feedAll rest dIdx reg with
  | mk g o =>
    rw [hf] at hmain hq
    cases o with
    | none =>
      obtain ⟨rfl, rfl⟩ : x = ⟨.ok, none, none⟩ ∧ z = g := by simpa using hmain
      obtain rfl : y = [] := hq rfl
      simp [populateLoop, proc, hsl, hf]
    | some v =>
      obtain ⟨rfl, rfl⟩ : x = ⟨.invalid, none, some v⟩ ∧ z = g := by simpa using hmain
      simp [populateLoop, proc, hsl, hf]

/-- A parse whose first `proc` step already empties the queue finishes
right after it: defaults are applied exactly when that step was Ok. -/
theorem populateLoop_step (fuel : Nat) (op : List Char) (rest : List (List Char))
    (dIdx : Option Nat) (reg : List ArgObj) (r0 r2 : ErrorState) (reg2 : List ArgObj)
    (hp : proc (op :: rest) dIdx reg = some (r2, [], reg2)) :
    populateLoop (fuel + 1) (op :: rest) dIdx reg r0 =
      some (if r2.state = ErrState.ok then (r2, setDefaults reg2) else (r2, reg2)) := by
  by_cases hok : r2.state = ErrState.ok
  · simp [populateLoop, hp, hok]
  · simp [populateLoop, hp, hok]

/-- Version of `populateLoop_step` phrased on `populate` itself. -/
theorem populate_step (op : List Char) (rest : List (List Char)) (reg : List ArgObj)
    (r0 r2 : ErrorState) (reg2 : List ArgObj)
    (hp : proc (op :: rest) (findDefault reg) reg = some (r2, [], reg2)) :
    populate r0 (op :: rest) reg =
      some (if r2.state = ErrState.ok then (r2, setDefaults reg2) else (r2, reg2)) :=
  populateLoop_step (qSize (op :: rest)) op rest (findDefault reg) reg r0 r2 reg2 hp

/-- C2 (counterexample): for the registered string option with short
`o` and long `outfile`, the value `:x` refutes the claim as stated:
`--outfile=:x` stores `":x"` while the supposedly equivalent `-o:x`
stores `"x"`, because short-mode matching skips one leading delimiter
of the embedded value. -/
theorem c2_counterexample :
    (populate ⟨.ok, none, none⟩ ["--outfile=:x".data] [strA]).map (·.2) ≠
      (populate ⟨.ok, none, none⟩ ["-o:x".data] [strA]).map (·.2) := by
  decide

/-- C2 (amended): for a registry whose sole registration is a scalar
(arity-1) option whose short spelling is nonempty and does not begin
with a dash, whose spellings fit the length cap, and for every value
string that is nonempty and does not begin with a delimiter, the five
token forms `--long=value`, `--long value`, `-shortvalue`,
`-short=value` and `-short value` all leave the identical final
bound-variable state.  The two value-string restrictions are forced by
the counterexample: an empty value makes `-shortvalue` collapse to the
bare spelling, and a leading delimiter is swallowed by the short-mode
split. -/
theorem c2_five_forms (sd ld vd : List Char) (h0 d0 : Option (List Char))
    (seen0 : Bool) (v0 : Val) (r0 : ErrorState)
    (hsn : sd ≠ []) (hsd : sd.head? ≠ some '-') (hsl : sd.length ≤ maxStrLen)
    (hll : ld.length ≤ maxStrLen) (hvn : vd ≠ [])
    (hvd : ∀ ch, vd.head? = some ch → isDelim ch = false)
    (hna : numArgsVal v0 = 1) :
    ((populate r0 [('-' :: '-' :: (ld ++ '=' :: vd))]
        [⟨some sd, some ld, h0, d0, seen0, v0⟩]).map (·.2) =
      some [⟨some sd, some ld, h0, d0, true, (fromStringVal v0 vd).1⟩])
    ∧ ((populate r0 ['-' :: '-' :: ld, vd]
        [⟨some sd, some ld, h0, d0, seen0, v0⟩]).map (·.2) =
      some [⟨some sd, some ld, h0, d0, true, (fromStringVal v0 vd).1⟩])
    ∧ ((populate r0 [('-' :: (sd ++ vd))]
        [⟨some sd, some ld, h0, d0, seen0, v0⟩]).map (·.2) =
      some [⟨some sd, some ld, h0, d0, true, (fromStringVal v0 vd).1⟩])
    ∧ ((populate r0 [('-' :: (sd ++ '=' :: vd))]
        [⟨some sd, some ld, h0, d0, seen0, v0⟩]).map (·.2) =
      some [⟨some sd, some ld, h0, d0, true, (fromStringVal v0 vd).1⟩])
    ∧ ((populate r0 ['-' :: sd, vd]
        [⟨some sd, some ld, h0, d0, seen0, v0⟩]).map (·.2) =
      some [⟨some sd, some ld, h0, d0, true, (fromStringVal v0 vd).1⟩]) := by
  cases sd with
  | nil => exact absurd rfl hsn
  | cons s1 stl =>
  cases vd with
  | nil => exact absurd rfl hvn
  | cons v1 vtl =>
  have hs1 : ¬(s1 = '-') := by
    intro h
    exact hsd (by simp [h])
  have hv1 : isDelim v1 = false := hvd v1 rfl
  have hdef : setDefaults
      [⟨some (s1 :: stl), some ld, h0, d0, true, (fromStringVal v0 (v1 :: vtl)).1⟩] =
      [⟨some (s1 :: stl), some ld, h0, d0, true, (fromStringVal v0 (v1 :: vtl)).1⟩] := by
    simp [setDefaults]
  have hm1 : matchLoop (ld ++ '=' :: v1 :: vtl) ld maxStrLen =
      some ('=' :: v1 :: vtl, []) := matchLoop_append ld _ maxStrLen hll
  have hm25 : matchLoop ld ld maxStrLen = some ([], []) := by
    simpa using matchLoop_append ld [] maxStrLen hll
  have hm3 : matchLoop (s1 :: (stl ++ v1 :: vtl)) (s1 :: stl) maxStrLen =
      some (v1 :: vtl, []) := by
    simpa using matchLoop_append (s1 :: stl) (v1 :: vtl) maxStrLen hsl
  have hm4 : matchLoop (s1 :: (stl ++ '=' :: v1 :: vtl)) (s1 :: stl) maxStrLen =
      some ('=' :: v1 :: vtl, []) := by
    simpa using matchLoop_append (s1 :: stl) ('=' :: v1 :: vtl) maxStrLen hsl
  have hm5 : matchLoop (s1 :: stl) (s1 :: stl) maxStrLen = some ([], []) := by
    simpa using matchLoop_append (s1 :: stl) [] maxStrLen hsl
  refine ⟨?_, ?_, ?_, ?_, ?_⟩
  · have hp : proc [('-' :: '-' :: (ld ++ '=' :: v1 :: vtl))]
        (findDefault [⟨some (s1 :: stl), some ld, h0, d0, seen0, v0⟩])
        [⟨some (s1 :: stl), some ld, h0, d0, seen0, v0⟩] =
        some ((if (fromStringVal v0 (v1 :: vtl)).2 then ⟨.ok, none, none⟩
            else ⟨.invalid, some ('-' :: '-' :: (ld ++ '=' :: v1 :: vtl)),
              some (v1 :: vtl)⟩), [],
          [⟨some (s1 :: stl), some ld, h0, d0, true, (fromStringVal v0 (v1 :: vtl)).1⟩]) := by
      simp [proc, procOpt, findArg, isMe, hm1, isDelim, hna, setMe]
    rw [populate_step _ _ _ r0 _ _ hp]
    cases hcv : (fromStringVal v0 (v1 :: vtl)).2 <;> simp [hcv, hdef]
  · have hp : proc (('-' :: '-' :: ld) :: [v1 :: vtl])
        (findDefault [⟨some (s1 :: stl), some ld, h0, d0, seen0, v0⟩])
        [⟨some (s1 :: stl), some ld, h0, d0, seen0, v0⟩] =
        some ((if (fromStringVal v0 (v1 :: vtl)).2 then ⟨.ok, none, none⟩
            else ⟨.invalid, some ('-' :: '-' :: ld), some (v1 :: vtl)⟩), [],
          [⟨some (s1 :: stl), some ld, h0, d0, true, (fromStringVal v0 (v1 :: vtl)).1⟩]) := by
      simp [proc, procOpt, findArg, isMe, hm25, hna, setMe]
    rw [populate_step _ _ _ r0 _ _ hp]
    cases hcv : (fromStringVal v0 (v1 :: vtl)).2 <;> simp [hcv, hdef]
  · have hp : proc [('-' :: ((s1 :: stl) ++ (v1 :: vtl)))]
        (findDefault [⟨some (s1 :: stl), some ld, h0, d0, seen0, v0⟩])
        [⟨some (s1 :: stl), some ld, h0, d0, seen0, v0⟩] =
        some ((if (fromStringVal v0 (v1 :: vtl)).2 then ⟨.ok, none, none⟩
            else ⟨.invalid, some ('-' :: ((s1 :: stl) ++ (v1 :: vtl))),
              some (v1 :: vtl)⟩), [],
          [⟨some (s1 :: stl), some ld, h0, d0, true, (fromStringVal v0 (v1 :: vtl)).1⟩]) := by
      simp [proc, procOpt, findArg, isMe, hm3, hs1, hv1, hna, setMe]
    rw [populate_step _ _ _ r0 _ _ hp]
    cases hcv : (fromStringVal v0 (v1 :: vtl)).2 <;> simp [hcv, hdef]
  · have hp : proc [('-' :: ((s1 :: stl) ++ '=' :: v1 :: vtl))]
        (findDefault [⟨some (s1 :: stl), some ld, h0, d0, seen0, v0⟩])
        [⟨some (s1 :: stl), some ld, h0, d0, seen0, v0⟩] =
        some ((if (fromStringVal v0 (v1 :: vtl)).2 then ⟨.ok, none, none⟩
            else ⟨.invalid, some ('-' :: ((s1 :: stl) ++ '=' :: v1 :: vtl)),
              some (v1 :: vtl)⟩), [],
          [⟨some (s1 :: stl), some ld, h0, d0, true, (fromStringVal v0 (v1 :: vtl)).1⟩]) := by
      simp [proc, procOpt, findArg, isMe, hm4, hs1, isDelim, hna, setMe]
    rw [populate_step _ _ _ r0 _ _ hp]
    cases hcv : (fromStringVal v0 (v1 :: vtl)).2 <;> simp [hcv, hdef]
  · have hp : proc (('-' :: s1 :: stl) :: [v1 :: vtl])
        (findDefault [⟨some (s1 :: stl), some ld, h0, d0, seen0, v0⟩])
        [⟨some (s1 :: stl), some ld, h0, d0, seen0, v0⟩] =
        some ((if (fromStringVal v0 (v1 :: vtl)).2 then ⟨.ok, none, none⟩
            else ⟨.invalid, some ('-' :: s1 :: stl), some (v1 :: vtl)⟩), [],
          [⟨some (s1 :: stl), some ld, h0, d0, true, (fromStringVal v0 (v1 :: vtl)).1⟩]) := by
      simp [proc, procOpt, findArg, isMe, hm5, hs1, hna, setMe]
    rw [populate_step _ _ _ r0 _ _ hp]
    cases hcv : (fromStringVal v0 (v1 :: vtl)).2 <;> simp [hcv, hdef]

/-- C2 witness: the first of the five forms at concrete inputs. -/
theorem c2_witness :
    (populate ⟨.ok, none, none⟩ [('-' :: '-' :: ("outfile".data ++ '=' :: "foo".data))]
        [⟨some "o".data, some "outfile".data, none, none, false, Val.vstr []⟩]).map (·.2) =
      some [⟨some "o".data, some "outfile".data, none, none, true,
        Val.vstr "foo".data⟩] :=
  (c2_five_forms "o".data "outfile".data "foo".data none none false (Val.vstr [])
    ⟨.ok, none, none⟩ (by decide) (by decide) (by decide) (by decide) (by decide)
    (by intro ch hch
        have hc : ch = 'f' := by simpa [eq_comm] using hch
        subst hc
        decide)
    rfl).1

/-- The comparison loop never returns a fragment remainder longer than
the fragment it started from. -/
theorem matchLoop_xr_length (x y : List Char) (fuel : Nat) (xr yr : List Char)
    (h : matchLoop x y fuel = some (xr, yr)) : xr.length ≤ x.length := by
  induction x generalizing y fuel with
  | nil =>
    cases y with
    | nil =>
      obtain ⟨rfl, rfl⟩ : xr = [] ∧ yr = [] := by simpa [matchLoop] using h.symm
      simp
    | cons b y2 =>
      obtain ⟨rfl, rfl⟩ : xr = [] ∧ yr = b :: y2 := by simpa [matchLoop] using h.symm
      simp
  | cons a x2 ih =>
    cases y with
    | nil =>
      obtain ⟨rfl, rfl⟩ : xr = a :: x2 ∧ yr = [] := by simpa [matchLoop] using h.symm
      simp
    | cons b y2 =>
      cases fuel with
      | zero =>
        obtain ⟨rfl, rfl⟩ : xr = a :: x2 ∧ yr = b :: y2 := by
          simpa [matchLoop] using h.symm
        simp
      | succ f =>
        simp only [matchLoop] at h
        by_cases hab : a = b
        · rw [if_pos hab] at h
          exact le_trans (ih y2 f h) (by simp)
        · rw [if_neg hab] at h
          simp at h

/-- An embedded value handed back by the matcher is no longer than the
candidate fragment. -/
theorem isMe_embedded_length (z : List Char) (sl : Bool) (a : ArgObj) (dv : List Char)
    (h : isMe (some z) sl a = some (some dv)) : dv.length ≤ z.length := by
  cases sl with
  | true =>
    cases hy : a.s with
    | none => simp [isMe, hy] at h
    | some yv =>
      cases hm : matchLoop z yv maxStrLen with
      | none => simp [isMe, hy, hm] at h
      | some p =>
        obtain ⟨xr, yr⟩ := p
        cases yr with
        | cons u v => simp [isMe, hy, hm] at h
        | nil =>
          cases xr with
          | nil => simp [isMe, hy, hm] at h
          | cons c xs =>
            have hx : (c :: xs).length ≤ z.length :=
              matchLoop_xr_length z yv maxStrLen (c :: xs) [] hm
            simp only [List.length_cons] at hx
            by_cases hdc : isDelim c = true
            · simp [isMe, hy, hm, hdc] at h
              subst h
              omega
            · simp [isMe, hy, hm, hdc] at h
              subst h
              simp only [List.length_cons]
              omega
  | false =>
    cases hy : a.l with
    | none => simp [isMe, hy] at h
    | some yv =>
      cases hm : matchLoop z yv maxStrLen with
      | none => simp [isMe, hy, hm] at h
      | some p =>
        obtain ⟨xr, yr⟩ := p
        cases yr with
        | cons u v => simp [isMe, hy, hm] at h
        | nil =>
          cases xr with
          | nil => simp [isMe, hy, hm] at h
          | cons c xs =>
            have hx : (c :: xs).length ≤ z.length :=
              matchLoop_xr_length z yv maxStrLen (c :: xs) [] hm
            simp only [List.length_cons] at hx
            by_cases hdc : isDelim c = true
            · simp [isMe, hy, hm, hdc] at h
              subst h
              omega
            · simp [isMe, hy, hm, hdc] at h

/-- An embedded value handed back by registry lookup is no longer than
the candidate fragment. -/
theorem findArg_embedded_length (reg : List ArgObj) (frag : List Char) (sl : Bool)
    (i : Nat) (a : ArgObj) (dv : List Char)
    (h : findArg reg frag sl = some (i, a, some dv)) : dv.length ≤ frag.length := by
  induction reg generalizing i with
  | nil => simp [findArg] at h
  | cons a0 t ih =>
    cases hm : isMe (some frag) sl a0 with
    | some d0 =>
      simp only [findArg, hm] at h
      obtain ⟨hi, ha, hd⟩ : 0 = i ∧ a0 = a ∧ d0 = some dv := by simpa using h
      exact isMe_embedded_length frag sl a0 dv (hd ▸ hm)
    | none =>
      simp only [findArg, hm, Option.map_eq_some'] at h
      obtain ⟨⟨i2, a2, d2⟩, hp, he⟩ := h
      obtain ⟨hi, rfl, rfl⟩ : i2 + 1 = i ∧ a2 = a ∧ d2 = some dv := by simpa using he
      exact ih i2 hp

/-- The lone-dash loop never returns a queue larger than the one it was
given. -/
theorem slurp_qSize (rest : List (List Char)) (dIdx : Option Nat) (reg : List ArgObj) :
    qSize (slurp rest dIdx reg).2.1 ≤ qSize rest := by
  induction rest generalizing reg with
  | nil => simp [slurp, qSize]
  | cons v rest2 ih =>
    by_cases hb : (setDef dIdx reg v).2 = true
    · simp only [slurp, hb, if_pos]
      exact le_trans (ih _) (by simp [qSize])
    · simp only [slurp, hb]
      simp [qSize]

/-- The option-token step of `proc` strictly shrinks the queue measure
whenever the matched fragment is shorter than the full token. -/
theorem procOpt_qSize (op : List Char) (rest : List (List Char)) (reg : List ArgObj)
    (frag : List Char) (sl : Bool) (r2 : ErrorState) (q2 : List (List Char))
    (reg2 : List ArgObj) (hfl : frag.length < op.length)
    (h : procOpt op rest reg (findArg reg frag sl) = some (r2, q2, reg2)) :
    qSize q2 < op.length + 1 + qSize rest := by
  cases hfa : findArg reg frag sl with
  | none =>
    rw [hfa] at h
    obtain ⟨h1, rfl, h3⟩ :
        (⟨.unknown, some op, none⟩ : ErrorState) = r2 ∧ rest = q2 ∧ reg = reg2 := by
      simpa [procOpt] using h
    omega
  | some t =>
    obtain ⟨i, a, dm⟩ := t
    rw [hfa] at h
    by_cases hz : numArgsVal a.v = 0
    · cases dm with
      | none =>
        obtain ⟨h1, rfl, h3⟩ := by simpa [procOpt, hz] using h
        omega
      | some dv =>
        have hdl : dv.length ≤ frag.length :=
          findArg_embedded_length reg frag sl i a dv hfa
        obtain ⟨h1, rfl, h3⟩ := by simpa [procOpt, hz] using h
        simp [qSize]
        omega
    · cases dm with
      | some dv =>
        obtain ⟨h1, rfl, h3⟩ := by simpa [procOpt, hz] using h
        omega
      | none =>
        cases rest with
        | nil => simp [procOpt, hz] at h
        | cons val rest2 =>
          obtain ⟨h1, rfl, h3⟩ := by simpa [procOpt, hz] using h
          simp [qSize]
          omega

/-- Every `proc` step strictly decreases the queue measure, so the
`populate` loop always finishes within `qSize` steps: the fuel that
`populate` hands to `populateLoop` is never the limiting factor. -/
theorem proc_qSize (op : List Char) (rest : List (List Char)) (dIdx : Option Nat)
    (reg : List ArgObj) (r2 : ErrorState) (q2 : List (List Char)) (reg2 : List ArgObj)
    (h : proc (op :: rest) dIdx reg = some (r2, q2, reg2)) :
    qSize q2 < qSize (op :: rest) := by
  cases op with
  | nil =>
    obtain ⟨h1, rfl, h3⟩ :
        (⟨.ok, none, none⟩ : ErrorState) = r2 ∧ rest = q2 ∧ reg = reg2 := by
      simpa [proc] using h
    simp [qSize]
  | cons c ctail =>
    by_cases hc : c = '-'
    · subst hc
      cases ctail with
      | nil =>
        have h2 : slurp rest dIdx reg = (r2, q2, reg2) := by
          simpa [proc] using h
        have hs := slurp_qSize rest dIdx reg
        rw [h2] at hs
        simp [qSize] at hs ⊢
        omega
      | cons c2 ctail2 =>
        by_cases hc2 : c2 = '-'
        · subst hc2
          have h2 : procOpt ('-' :: '-' :: ctail2) rest reg
              (findArg reg ctail2 false) = some (r2, q2, reg2) := by
            simpa [proc] using h
          have := procOpt_qSize ('-' :: '-' :: ctail2) rest reg ctail2 false
            r2 q2 reg2 (by simp only [List.length_cons]; omega) h2
          simpa [qSize] using this
        · have h2 : procOpt ('-' :: c2 :: ctail2) rest reg
              (findArg reg (c2 :: ctail2) true) = some (r2, q2, reg2) := by
            simpa [proc, hc2] using h
          have := procOpt_qSize ('-' :: c2 :: ctail2) rest reg (c2 :: ctail2) true
            r2 q2 reg2 (by simp only [List.length_cons]; omega) h2
          simpa [qSize] using this
    · obtain ⟨h1, rfl, h3⟩ := by simpa [proc, hc] using h
      simp [qSize]

/-- Above the `qSize` threshold the loop result does not depend on the
fuel: together with `proc_qSize` this shows the bounded loop is a
faithful rendering of the unbounded source loop. -/
theorem populateLoop_fuel_free (fuel1 : Nat) :
    ∀ (fuel2 : Nat) (q : List (List Char)) (dIdx : Option Nat) (reg : List ArgObj)
      (r0 : ErrorState), qSize q < fuel1 → qSize q < fuel2 →
      populateLoop fuel1 q dIdx reg r0 = populateLoop fuel2 q dIdx reg r0 := by
  induction fuel1 with
  | zero => intro fuel2 q dIdx reg r0 h1 h2; omega
  | succ f1 ih =>
    intro fuel2 q dIdx reg r0 h1 h2
    cases q with
    | nil => simp [populateLoop]
    | cons op rest =>
      cases fuel2 with
      | zero => omega
      | succ f2 =>
        simp only [populateLoop]
        cases hp : proc (op :: rest) dIdx reg with
        | none => simp
        | some trip =>
          obtain ⟨r2, q2, reg2⟩ := trip
          by_cases hok : r2.state = ErrState.ok
          · have hlt := proc_qSize op rest dIdx reg r2 q2 reg2 hp
            simp only [hok, if_pos]
            exact ih f2 q2 dIdx reg2 r2 (by omega) (by omega)
          · simp [hok]

/-- `populate` computed with any fuel above the threshold agrees with
the definition. -/
theorem populate_eq_any_fuel (fuel : Nat) (r0 : ErrorState) (tokens : List (List Char))
    (reg : List ArgObj) (h : qSize tokens < fuel) :
    populate r0 tokens reg = populateLoop fuel tokens (findDefault reg) reg r0 :=
  populateLoop_fuel_free (qSize tokens + 1) fuel tokens (findDefault reg) reg r0
    (by omega) h

end Cmdline
